import Mathlib

/-!
Shallow embedding of the `website-view-counter` Cloudflare Worker:
`src/ViewCounterDO.ts` (the Durable Object owning one counter) and
`src/index.ts` (the router / worker entry point).

The durable storage of all Durable Object instances is modelled as one
association list from the Durable Object id name (`host + path`) to the
stored `views` value: each `ViewCounterDurableObject` instance reads and
writes the key `"views"` in its own storage namespace, which corresponds
to the single global key `doIdName` here.
-/

set_option autoImplicit false

namespace ViewCounter

/-- Request methods as compared by the source (`request.method` strings);
`other s` stands for any method other than GET, POST and OPTIONS. -/
inductive Method where
  | GET
  | POST
  | OPTIONS
  | other (s : String)
deriving DecidableEq

/-- Minimal JSON values, enough for the batch request body
(`await request.json()` in `src/index.ts`). -/
inductive Json where
  | str (s : String)
  | num (n : Int)
  | boolean (b : Bool)
  | nullVal
  | arr (xs : List Json)

/-- Response bodies produced by the worker and the Durable Object. -/
inductive RespBody where
  | empty
  | viewsJson (n : Nat)
  | errorJson (msg : String)
  | textBody (s : String)
  | mapJson (m : List (String × Option Nat))
deriving DecidableEq

/-- Durable storage across all Durable Object instances, keyed by the
Durable Object id name (`host + path`). -/
abbrev Store := List (String × Nat)

/-- Association-list lookup (storage `get`). -/
def lookupKV {β : Type} : List (String × β) → String → Option β
  | [], _ => none
  | (k2, v) :: rest, k => if k2 = k then some v else lookupKV rest k

/-- Association-list update, replacing an existing binding for the key or
appending a new one (storage `put` / JS object property assignment). -/
def putKV {β : Type} : List (String × β) → String → β → List (String × β)
  | [], k, v => [(k, v)]
  | (k2, v2) :: rest, k, v =>
      if k2 = k then (k2, v) :: rest else (k2, v2) :: putKV rest k v

/-- Result of `ViewCounterDurableObject.fetch`: status, body and the
durable storage after the call. -/
structure DOResult where
  status : Nat
  body : RespBody
  store : Store
deriving DecidableEq

/-- `ViewCounterDurableObject.fetch` (src/ViewCounterDO.ts, lines 25-46):
OPTIONS is answered empty; otherwise the current value is re-read from
durable storage (`?? 0`), POST increments and persists it, GET returns it,
and any other method gets 405 "Method Not Allowed" with no write. -/
def doFetch (method : Method) (doIdName : String) (store : Store) : DOResult :=
  if method = Method.OPTIONS then
    ⟨200, RespBody.empty, store⟩
  else
    let views := (lookupKV store doIdName).getD 0
    if method = Method.POST then
      ⟨200, RespBody.viewsJson (views + 1), putKV store doIdName (views + 1)⟩
    else if method = Method.GET then
      ⟨200, RespBody.viewsJson views, store⟩
    else
      ⟨405, RespBody.textBody "Method Not Allowed", store⟩

/-- `path.startsWith('/')`: the first character is `/`. -/
def startsWithSlash (p : String) : Bool :=
  match p.data with
  | [] => false
  | c :: _ => c = '/'

/-- Path normalization used by the batch branch (src/index.ts line 67):
`path.startsWith('/') ? path : '/' + path`. -/
def normalizePath (p : String) : String :=
  if startsWithSlash p then p else "/" ++ p

/-- `typeof path === 'string'` on a JSON value. -/
def isStrJson : Json → Bool
  | Json.str _ => true
  | _ => false

/-- The per-entry batch validation of src/index.ts line 55:
an entry passes iff it is a string whose trimmed form is non-empty
(`path.trim() === ''` holds exactly when every character of the string is
whitespace, which is how the trim test is modelled here). -/
def isValidBatchEntry : Json → Bool
  | Json.str s => if s.data.all Char.isWhitespace then false else true
  | _ => false

/-- The string carried by a JSON string entry (entries of a validated
batch body are always strings). -/
def getStrD : Json → String
  | Json.str s => s
  | _ => ""

/-- The value recorded for one normalized path by the batch fan-out
(src/index.ts lines 66-83): a GET is issued to the Durable Object whose
id name is `host + path`; on failure (modelled by the oracle `fails` on
the id name) `null` is recorded, otherwise the returned `views`. -/
def batchValue (requestHost : String) (fails : String → Bool) (store : Store)
    (articlePath : String) : Option Nat :=
  let doIdName := requestHost ++ articlePath
  if fails doIdName then none
  else
    match (doFetch Method.GET doIdName store).body with
    | RespBody.viewsJson n => some n
    | _ => none

/-- The batch result mapping (src/index.ts lines 65-85): one JS object
keyed by the normalized path, written once per input path. -/
def runBatch (requestHost : String) (fails : String → Bool) (store : Store)
    (paths : List String) : List (String × Option Nat) :=
  paths.foldl
    (fun acc p =>
      putKV acc (normalizePath p)
        (batchValue requestHost fails store (normalizePath p)))
    []

/-- Result of the worker `fetch` (src/index.ts): status, body, durable
storage after the request, the list of Durable Object id names contacted
during the request, and whether the CORS headers are attached. -/
structure WorkerResult where
  status : Nat
  body : RespBody
  store : Store
  calls : List String
  cors : Bool

/-- The worker entry point `fetch` (src/index.ts, lines 20-121).
`host` is the `Host` header (`none` when absent), `path` is
`url.pathname`, `body` the parsed JSON body (`none` when parsing throws),
and `fails` the oracle saying which batch sub-fetches fail. -/
def workerFetch (method : Method) (host : Option String) (path : String)
    (body : Option Json) (fails : String → Bool) (store : Store) : WorkerResult :=
  if method = Method.OPTIONS then
    ⟨200, RespBody.empty, store, [], true⟩
  else
    match host with
    | none => ⟨400, RespBody.errorJson "Missing Host header", store, [], true⟩
    | some requestHost =>
      if path = "/batch" then
        if method ≠ Method.POST then
          ⟨405, RespBody.textBody "Method Not Allowed", store, [], true⟩
        else
          match body with
          | some (Json.arr xs) =>
            if xs.all isValidBatchEntry then
              let paths := xs.map getStrD
              ⟨200, RespBody.mapJson (runBatch requestHost fails store paths),
                store,
                paths.map (fun p => requestHost ++ normalizePath p), true⟩
            else
              ⟨400, RespBody.errorJson "Invalid request body", store, [], true⟩
          | _ => ⟨400, RespBody.errorJson "Invalid request body", store, [], true⟩
      else if path = "/" ∨ path = "/batch" then
        ⟨400, RespBody.errorJson "Invalid article path", store, [], true⟩
      else
        let doIdName := requestHost ++ path
        let r := doFetch method doIdName store
        ⟨r.status, r.body, r.store, [doIdName], true⟩

/-- The keys of an association list. -/
def keysOf {β : Type} (l : List (String × β)) : List String :=
  l.map Prod.fst

/-- Number of occurrences of a key in a list of keys. -/
def countKey (k : String) : List String → Nat
  | [] => 0
  | o :: rest => (if o = k then 1 else 0) + countKey k rest

/-- `n` sequential single-path POST requests (increments) through the
worker for the same host and path. -/
def postN (host articlePath : String) : Nat → Store → Store
  | 0, s => s
  | n + 1, s =>
      postN host articlePath n
        ((workerFetch Method.POST (some host) articlePath none (fun _ => false)
            s).store)

/-- Modelled from the spec: the Durable Object runtime's per-instance
request serialization (spec §5, "Per-partition-key access must be
strictly serialized") is provided by the Cloudflare platform, not by code
under src/. A set of concurrent increments is therefore modelled as an
arbitrary linearization: a list of Durable Object id names (one per
increment, in any interleaving order), each applied as one atomic
`doFetch POST` from src/ViewCounterDO.ts. -/
def applyOps (ops : List String) (s : Store) : Store :=
  ops.foldl (fun st k => (doFetch Method.POST k st).store) s

/-! ### Helper lemmas about the association-list storage -/

theorem lookupKV_putKV {β : Type} (l : List (String × β)) (k : String) (v : β)
    (k2 : String) :
    lookupKV (putKV l k v) k2 = if k = k2 then some v else lookupKV l k2 := by
  induction l with
  | nil =>
    by_cases h : k = k2 <;> simp [putKV, lookupKV, h]
  | cons hd tl ih =>
    obtain ⟨k3, v3⟩ := hd
    by_cases h3 : k3 = k
    · subst h3
      by_cases h : k3 = k2 <;> simp [putKV, lookupKV, h]
    · by_cases h : k3 = k2
      · subst h
        have hk : ¬ k = k3 := fun he => h3 he.symm
        simp [putKV, lookupKV, h3, hk]
      · simp [putKV, lookupKV, h3, h, ih]

theorem keysOf_putKV_of_mem {β : Type} (l : List (String × β)) (k : String)
    (v : β) (h : k ∈ keysOf l) : keysOf (putKV l k v) = keysOf l := by
  induction l with
  | nil => simp [keysOf] at h
  | cons hd tl ih =>
    obtain ⟨k3, v3⟩ := hd
    by_cases h3 : k3 = k
    · simp [putKV, keysOf, h3]
    · have hmem : k ∈ keysOf tl := by
        simp [keysOf] at h
        rcases h with h | h
        · exact absurd h.symm h3
        · simpa [keysOf] using h
      simp only [putKV, if_neg h3, keysOf, List.map_cons]
      have := ih hmem
      simp only [keysOf] at this
      rw [this]

theorem keysOf_putKV_of_not_mem {β : Type} (l : List (String × β)) (k : String)
    (v : β) (h : k ∉ keysOf l) : keysOf (putKV l k v) = keysOf l ++ [k] := by
  induction l with
  | nil => simp [putKV, keysOf]
  | cons hd tl ih =>
    obtain ⟨k3, v3⟩ := hd
    have hk3 : k3 ≠ k := by
      intro he
      exact h (by simp [keysOf, he])
    have htl : k ∉ keysOf tl := by
      intro hmem
      exact h (by simp [keysOf] at hmem ⊢; right; simpa [keysOf] using hmem)
    simp only [putKV, if_neg hk3, keysOf, List.map_cons]
    have := ih htl
    simp only [keysOf] at this
    rw [this]
    simp

theorem lookupKV_eq_none_iff {β : Type} (l : List (String × β)) (k : String) :
    lookupKV l k = none ↔ k ∉ keysOf l := by
  induction l with
  | nil => simp [lookupKV, keysOf]
  | cons hd tl ih =>
    obtain ⟨k3, v3⟩ := hd
    by_cases h3 : k3 = k
    · subst h3
      simp [lookupKV, keysOf]
    · simp only [lookupKV, if_neg h3, keysOf, List.map_cons, List.mem_cons]
      rw [ih]
      constructor
      · intro hn hc
        rcases hc with hc | hc
        · exact h3 hc.symm
        · exact hn (by simpa [keysOf] using hc)
      · intro hn hm
        exact hn (Or.inr (by simpa [keysOf] using hm))

theorem keysOf_putKV_nodup {β : Type} (l : List (String × β)) (k : String)
    (v : β) (h : (keysOf l).Nodup) : (keysOf (putKV l k v)).Nodup := by
  by_cases hmem : k ∈ keysOf l
  · rwa [keysOf_putKV_of_mem l k v hmem]
  · rw [keysOf_putKV_of_not_mem l k v hmem]
    simpa [List.nodup_append] using ⟨h, hmem⟩

theorem countKey_eq_zero (l : List String) (k : String) (h : k ∉ l) :
    countKey k l = 0 := by
  induction l with
  | nil => rfl
  | cons a tl ih =>
    have ha : a ≠ k := fun he => h (by simp [he])
    have htl : k ∉ tl := fun hm => h (by simp [hm])
    simp [countKey, ha, ih htl]

theorem countKey_eq_one (l : List String) (k : String) (hn : l.Nodup)
    (hm : k ∈ l) : countKey k l = 1 := by
  induction l with
  | nil => simp at hm
  | cons a tl ih =>
    rcases List.nodup_cons.mp hn with ⟨hna, hntl⟩
    by_cases ha : a = k
    · subst ha
      simp [countKey, countKey_eq_zero tl a hna]
    · have hmtl : k ∈ tl := by
        rcases List.mem_cons.mp hm with h | h
        · exact absurd h.symm ha
        · exact h
      simp [countKey, ha, ih hntl hmtl]

/-! ### Characterization of the batch result mapping -/

theorem lookupKV_runBatch_foldl (requestHost : String) (fails : String → Bool)
    (store : Store) (paths : List String) (acc : List (String × Option Nat))
    (k : String) :
    lookupKV
      (paths.foldl
        (fun acc p =>
          putKV acc (normalizePath p)
            (batchValue requestHost fails store (normalizePath p)))
        acc) k =
    if k ∈ paths.map normalizePath then
      some (batchValue requestHost fails store k)
    else lookupKV acc k := by
  induction paths generalizing acc with
  | nil => simp
  | cons p ps ih =>
    simp only [List.foldl_cons, List.map_cons, List.mem_cons]
    rw [ih]
    by_cases hps : k ∈ ps.map normalizePath
    · simp [hps]
    · by_cases hp : normalizePath p = k
      · subst hp
        simp [hps, lookupKV_putKV]
      · have : ¬ k = normalizePath p := fun he => hp he.symm
        simp [hps, this, lookupKV_putKV, hp]

theorem lookupKV_runBatch (requestHost : String) (fails : String → Bool)
    (store : Store) (paths : List String) (k : String) :
    lookupKV (runBatch requestHost fails store paths) k =
    if k ∈ paths.map normalizePath then
      some (batchValue requestHost fails store k)
    else none := by
  unfold runBatch
  rw [lookupKV_runBatch_foldl]
  by_cases h : k ∈ paths.map normalizePath <;> simp [h, lookupKV]

theorem keysOf_runBatch_foldl_nodup (requestHost : String)
    (fails : String → Bool) (store : Store) (paths : List String)
    (acc : List (String × Option Nat)) (hn : (keysOf acc).Nodup) :
    (keysOf
      (paths.foldl
        (fun acc p =>
          putKV acc (normalizePath p)
            (batchValue requestHost fails store (normalizePath p)))
        acc)).Nodup := by
  induction paths generalizing acc with
  | nil => simpa using hn
  | cons p ps ih =>
    simp only [List.foldl_cons]
    exact ih _ (keysOf_putKV_nodup _ _ _ hn)

theorem keysOf_runBatch_nodup (requestHost : String) (fails : String → Bool)
    (store : Store) (paths : List String) :
    (keysOf (runBatch requestHost fails store paths)).Nodup := by
  unfold runBatch
  exact keysOf_runBatch_foldl_nodup requestHost fails store paths []
    (by simp [keysOf])

theorem mem_keysOf_runBatch (requestHost : String) (fails : String → Bool)
    (store : Store) (paths : List String) (k : String) :
    k ∈ keysOf (runBatch requestHost fails store paths) ↔
      k ∈ paths.map normalizePath := by
  have hiff := lookupKV_eq_none_iff (runBatch requestHost fails store paths) k
  rw [lookupKV_runBatch] at hiff
  by_cases h : k ∈ paths.map normalizePath
  · simp [h] at hiff
    simpa [h] using hiff
  · simp [h] at hiff
    simp [h, hiff]

/-! ### Single-request behaviour -/

theorem doFetch_post_store (k : String) (s : Store) :
    (doFetch Method.POST k s).store = putKV s k ((lookupKV s k).getD 0 + 1) := by
  simp [doFetch]

theorem workerFetch_post_single (h p : String) (b : Option Json)
    (f : String → Bool) (s : Store) (hp1 : p ≠ "/") (hp2 : p ≠ "/batch") :
    workerFetch Method.POST (some h) p b f s =
      ⟨200, RespBody.viewsJson ((lookupKV s (h ++ p)).getD 0 + 1),
        putKV s (h ++ p) ((lookupKV s (h ++ p)).getD 0 + 1), [h ++ p], true⟩ := by
  simp [workerFetch, hp1, hp2, doFetch]

theorem workerFetch_get_single (h p : String) (b : Option Json)
    (f : String → Bool) (s : Store) (hp1 : p ≠ "/") (hp2 : p ≠ "/batch") :
    workerFetch Method.GET (some h) p b f s =
      ⟨200, RespBody.viewsJson ((lookupKV s (h ++ p)).getD 0), s, [h ++ p],
        true⟩ := by
  simp [workerFetch, hp1, hp2, doFetch]

theorem workerFetch_batch_valid (h : String) (xs : List Json)
    (f : String → Bool) (s : Store) (hv : xs.all isValidBatchEntry = true) :
    workerFetch Method.POST (some h) "/batch" (some (Json.arr xs)) f s =
      ⟨200, RespBody.mapJson (runBatch h f s (xs.map getStrD)), s,
        (xs.map getStrD).map (fun p => h ++ normalizePath p), true⟩ := by
  simp [workerFetch, hv]

theorem postN_views (h p : String) (hp1 : p ≠ "/") (hp2 : p ≠ "/batch")
    (n : Nat) (s : Store) :
    (lookupKV (postN h p n s) (h ++ p)).getD 0 =
      (lookupKV s (h ++ p)).getD 0 + n := by
  induction n generalizing s with
  | zero => simp [postN]
  | succ m ih =>
    have hs :
        (workerFetch Method.POST (some h) p none (fun _ => false) s).store =
          putKV s (h ++ p) ((lookupKV s (h ++ p)).getD 0 + 1) := by
      rw [workerFetch_post_single h p none (fun _ => false) s hp1 hp2]
    rw [postN, hs, ih]
    rw [lookupKV_putKV]
    simp
    omega

theorem append_cancel_of_eq (h1 h2 p : String) (h : h1 ++ p = h2 ++ p) :
    h1 = h2 := by
  have hd : h1.data ++ p.data = h2.data ++ p.data := by
    simpa [String.data_append] using congrArg String.data h
  have h2d : h1.data = h2.data := List.append_cancel_right hd
  cases h1
  cases h2
  simp only at h2d
  rw [h2d]

/-! ### Claims -/

/-- C1: for every partition key, `Increment` (a single-path POST) loads
the current durable value (0 if absent), adds 1, persists the new value
durably, and returns that new value; N sequential Increments on the same
key leave the durable value exactly N greater than before. -/
theorem c1_increment_adds_one_and_persists (h p : String) (b : Option Json)
    (f : String → Bool) (s : Store) (n : Nat)
    (hp1 : p ≠ "/") (hp2 : p ≠ "/batch") :
    (workerFetch Method.POST (some h) p b f s).status = 200 ∧
    (workerFetch Method.POST (some h) p b f s).body =
      RespBody.viewsJson ((lookupKV s (h ++ p)).getD 0 + 1) ∧
    (lookupKV (workerFetch Method.POST (some h) p b f s).store
        (h ++ p)).getD 0 = (lookupKV s (h ++ p)).getD 0 + 1 ∧
    (lookupKV (postN h p n s) (h ++ p)).getD 0 =
      (lookupKV s (h ++ p)).getD 0 + n := by
  rw [workerFetch_post_single h p b f s hp1 hp2]
  refine ⟨rfl, rfl, ?_, postN_views h p hp1 hp2 n s⟩
  rw [lookupKV_putKV]
  simp

/-- Witness for C1 at host `a.com`, path `/x`, empty storage, `n = 3`. -/
theorem c1_witness :
    (workerFetch Method.POST (some "a.com") "/x" none (fun _ => false)
        []).status = 200 ∧
    (workerFetch Method.POST (some "a.com") "/x" none (fun _ => false)
        []).body =
      RespBody.viewsJson ((lookupKV ([] : Store) ("a.com" ++ "/x")).getD 0 + 1) ∧
    (lookupKV
        (workerFetch Method.POST (some "a.com") "/x" none (fun _ => false)
            []).store ("a.com" ++ "/x")).getD 0 =
      (lookupKV ([] : Store) ("a.com" ++ "/x")).getD 0 + 1 ∧
    (lookupKV (postN "a.com" "/x" 3 []) ("a.com" ++ "/x")).getD 0 =
      (lookupKV ([] : Store) ("a.com" ++ "/x")).getD 0 + 3 :=
  c1_increment_adds_one_and_persists "a.com" "/x" none (fun _ => false) [] 3
    (by decide) (by decide)

/-- C2: no two increments on the same partition key are lost under any
interleaving. Concurrent execution is modelled as an arbitrary
linearization `ops` of atomic `doFetch POST` calls (the serialization
itself is the Durable Object runtime's guarantee, spec §5): whatever the
order, every key ends exactly `countKey k ops` above its initial value,
so N concurrent increments on one key raise it by exactly N. -/
theorem c2_no_lost_updates (ops : List String) (s : Store) (k : String) :
    (lookupKV (applyOps ops s) k).getD 0 =
      (lookupKV s k).getD 0 + countKey k ops := by
  induction ops generalizing s with
  | nil => simp [applyOps, countKey]
  | cons o rest ih =>
    have step : applyOps (o :: rest) s =
        applyOps rest (putKV s o ((lookupKV s o).getD 0 + 1)) := by
      simp [applyOps, doFetch_post_store]
    rw [step, ih, lookupKV_putKV]
    by_cases hok : o = k
    · subst hok
      simp [countKey]
      try omega
    · simp [countKey, hok]
      try omega

/-- C3: the partition key is the host concatenated with the normalized
path, two different hosts with the same path get different keys, and an
increment for one host leaves the other host's counter for the same path
unchanged. -/
theorem c3_tenant_isolation (h1 h2 p : String) (b : Option Json)
    (f : String → Bool) (s : Store) (hne : h1 ≠ h2)
    (hp1 : p ≠ "/") (hp2 : p ≠ "/batch") (hps : startsWithSlash p = true) :
    h1 ++ normalizePath p ≠ h2 ++ normalizePath p ∧
    (workerFetch Method.POST (some h1) p b f s).calls =
      [h1 ++ normalizePath p] ∧
    lookupKV (workerFetch Method.POST (some h1) p b f s).store
        (h2 ++ normalizePath p) =
      lookupKV s (h2 ++ normalizePath p) := by
  have hnorm : normalizePath p = p := by simp [normalizePath, hps]
  have hkeys : h1 ++ p ≠ h2 ++ p := fun he =>
    hne (append_cancel_of_eq h1 h2 p he)
  rw [hnorm, workerFetch_post_single h1 p b f s hp1 hp2]
  refine ⟨hkeys, rfl, ?_⟩
  rw [lookupKV_putKV]
  simp [hkeys]

/-- Witness for C3 at hosts `a.com`, `b.com`, path `/x`, storage holding
one view for `b.com/x`. -/
theorem c3_witness :
    "a.com" ++ normalizePath "/x" ≠ "b.com" ++ normalizePath "/x" ∧
    (workerFetch Method.POST (some "a.com") "/x" none (fun _ => false)
        [("b.com/x", 7)]).calls = ["a.com" ++ normalizePath "/x"] ∧
    lookupKV
        (workerFetch Method.POST (some "a.com") "/x" none (fun _ => false)
            [("b.com/x", 7)]).store ("b.com" ++ normalizePath "/x") =
      lookupKV [("b.com/x", 7)] ("b.com" ++ normalizePath "/x") :=
  c3_tenant_isolation "a.com" "b.com" "/x" none (fun _ => false)
    [("b.com/x", 7)] (by decide) (by decide) (by decide) (by decide)

/-- C4: `Get` (a single-path GET) loads the current durable value,
falling back to 0 if absent, returns it and mutates nothing; the first
Get before any Increment returns 0, and a repeated Get with no
intervening Increment returns the same value. -/
theorem c4_get_is_pure_read (h p : String) (b : Option Json)
    (f : String → Bool) (s : Store) (hp1 : p ≠ "/") (hp2 : p ≠ "/batch") :
    (workerFetch Method.GET (some h) p b f s).status = 200 ∧
    (workerFetch Method.GET (some h) p b f s).body =
      RespBody.viewsJson ((lookupKV s (h ++ p)).getD 0) ∧
    (workerFetch Method.GET (some h) p b f s).store = s ∧
    (lookupKV s (h ++ p) = none →
      (workerFetch Method.GET (some h) p b f s).body =
        RespBody.viewsJson 0) ∧
    (workerFetch Method.GET (some h) p b f
        (workerFetch Method.GET (some h) p b f s).store).body =
      (workerFetch Method.GET (some h) p b f s).body := by
  rw [workerFetch_get_single h p b f s hp1 hp2]
  refine ⟨rfl, rfl, rfl, ?_, ?_⟩
  · intro he
    simp [he]
  · rw [workerFetch_get_single h p b f s hp1 hp2]

/-- Witness for C4 at host `a.com`, path `/x`, empty storage. -/
theorem c4_witness :
    (workerFetch Method.GET (some "a.com") "/x" none (fun _ => false)
        []).status = 200 ∧
    (workerFetch Method.GET (some "a.com") "/x" none (fun _ => false)
        []).body = RespBody.viewsJson ((lookupKV ([] : Store) ("a.com" ++ "/x")).getD 0) ∧
    (workerFetch Method.GET (some "a.com") "/x" none (fun _ => false)
        []).store = [] ∧
    (lookupKV ([] : Store) ("a.com" ++ "/x") = none →
      (workerFetch Method.GET (some "a.com") "/x" none (fun _ => false)
          []).body = RespBody.viewsJson 0) ∧
    (workerFetch Method.GET (some "a.com") "/x" none (fun _ => false)
        (workerFetch Method.GET (some "a.com") "/x" none (fun _ => false)
            []).store).body =
      (workerFetch Method.GET (some "a.com") "/x" none (fun _ => false)
          []).body :=
  c4_get_is_pure_read "a.com" "/x" none (fun _ => false) [] (by decide)
    (by decide)

/-- C5 counterexample: a single-path request with method `PUT` (neither
GET, POST nor OPTIONS) is NOT rejected by the router before reaching a
Partition Actor: the Durable Object `a.com/x` is contacted (the 405 comes
from `ViewCounterDurableObject.fetch`, after the router forwarded the
request on src/index.ts line 114). -/
theorem c5_counterexample :
    (workerFetch (Method.other "PUT") (some "a.com") "/x" none
        (fun _ => false) []).calls = ["a.com/x"] ∧
    (workerFetch (Method.other "PUT") (some "a.com") "/x" none
        (fun _ => false) []).calls ≠ [] ∧
    (workerFetch (Method.other "PUT") (some "a.com") "/x" none
        (fun _ => false) []).status = 405 ∧
    (workerFetch (Method.other "PUT") (some "a.com") "/x" none
        (fun _ => false) []).store = [] := by
  refine ⟨rfl, by decide, rfl, rfl⟩

/-- C5 (amended): a single-path request whose method is neither GET, POST
nor OPTIONS is forwarded to the Partition Actor for `host ++ path`, which
answers 405 "Method Not Allowed" and performs no state change on any
counter. -/
theorem c5_amended_unsupported_method (ms h p : String) (b : Option Json)
    (f : String → Bool) (s : Store) (hp1 : p ≠ "/") (hp2 : p ≠ "/batch") :
    (workerFetch (Method.other ms) (some h) p b f s).status = 405 ∧
    (workerFetch (Method.other ms) (some h) p b f s).body =
      RespBody.textBody "Method Not Allowed" ∧
    (workerFetch (Method.other ms) (some h) p b f s).store = s ∧
    (workerFetch (Method.other ms) (some h) p b f s).calls = [h ++ p] := by
  simp [workerFetch, hp1, hp2, doFetch]

/-- Witness for the amended C5 at method `PUT`, host `a.com`, path `/x`. -/
theorem c5_amended_witness :
    (workerFetch (Method.other "PUT") (some "a.com") "/x" none
        (fun _ => false) [("a.com/x", 2)]).status = 405 ∧
    (workerFetch (Method.other "PUT") (some "a.com") "/x" none
        (fun _ => false) [("a.com/x", 2)]).body =
      RespBody.textBody "Method Not Allowed" ∧
    (workerFetch (Method.other "PUT") (some "a.com") "/x" none
        (fun _ => false) [("a.com/x", 2)]).store = [("a.com/x", 2)] ∧
    (workerFetch (Method.other "PUT") (some "a.com") "/x" none
        (fun _ => false) [("a.com/x", 2)]).calls = ["a.com" ++ "/x"] :=
  c5_amended_unsupported_method "PUT" "a.com" "/x" none (fun _ => false)
    [("a.com/x", 2)] (by decide) (by decide)

/-- C6 counterexample: `GET /batch` — the reserved batch path used as a
plain resource path — is rejected with 405 "Method Not Allowed" (plain
text), not with a 400 JSON error body as the claim states; no actor is
contacted. -/
theorem c6_counterexample :
    (workerFetch Method.GET (some "a.com") "/batch" none
        (fun _ => false) []).status = 405 ∧
    (workerFetch Method.GET (some "a.com") "/batch" none
        (fun _ => false) []).status ≠ 400 ∧
    (workerFetch Method.GET (some "a.com") "/batch" none
        (fun _ => false) []).body =
      RespBody.textBody "Method Not Allowed" ∧
    (workerFetch Method.GET (some "a.com") "/batch" none
        (fun _ => false) []).calls = [] := by
  refine ⟨rfl, by decide, rfl, rfl⟩

/-- C6 (amended): a request whose path is the root path `/` (any method
but OPTIONS) is rejected with a 400 JSON error; for the reserved path
`/batch`, a POST whose body is not a valid batch array is rejected with a
400 JSON error, while any other non-OPTIONS method is rejected with 405;
in every case no Partition Actor is dispatched and no counter state is
touched. -/
theorem c6_amended_reserved_paths (m : Method) (h p : String)
    (b : Option Json) (f : String → Bool) (s : Store) :
    ((p = "/" ∧ m ≠ Method.OPTIONS) →
      (workerFetch m (some h) p b f s).status = 400 ∧
      (workerFetch m (some h) p b f s).body =
        RespBody.errorJson "Invalid article path" ∧
      (workerFetch m (some h) p b f s).store = s ∧
      (workerFetch m (some h) p b f s).calls = []) ∧
    ((p = "/batch" ∧ m = Method.POST ∧
        (∀ xs : List Json,
          b = some (Json.arr xs) → xs.all isValidBatchEntry = false)) →
      (workerFetch m (some h) p b f s).status = 400 ∧
      (workerFetch m (some h) p b f s).body =
        RespBody.errorJson "Invalid request body" ∧
      (workerFetch m (some h) p b f s).store = s ∧
      (workerFetch m (some h) p b f s).calls = []) ∧
    ((p = "/batch" ∧ m ≠ Method.POST ∧ m ≠ Method.OPTIONS) →
      (workerFetch m (some h) p b f s).status = 405 ∧
      (workerFetch m (some h) p b f s).store = s ∧
      (workerFetch m (some h) p b f s).calls = []) := by
  refine ⟨?_, ?_, ?_⟩
  · rintro ⟨hp, hm⟩
    subst hp
    simp [workerFetch, hm]
  · rintro ⟨hp, hm, hbody⟩
    subst hp hm
    cases b with
    | none => simp [workerFetch]
    | some j =>
      cases j with
      | arr xs => simp [workerFetch, hbody xs rfl]
      | str t => simp [workerFetch]
      | num n => simp [workerFetch]
      | boolean v => simp [workerFetch]
      | nullVal => simp [workerFetch]
  · rintro ⟨hp, hm1, hm2⟩
    subst hp
    simp [workerFetch, hm1, hm2]

/-- Witness for the amended C6: `GET /` is rejected with a 400 JSON
error, touching nothing. -/
theorem c6_amended_witness :
    (workerFetch Method.GET (some "a.com") "/" none
        (fun _ => false) [("a.com/x", 2)]).status = 400 ∧
    (workerFetch Method.GET (some "a.com") "/" none
        (fun _ => false) [("a.com/x", 2)]).body =
      RespBody.errorJson "Invalid article path" ∧
    (workerFetch Method.GET (some "a.com") "/" none
        (fun _ => false) [("a.com/x", 2)]).store = [("a.com/x", 2)] ∧
    (workerFetch Method.GET (some "a.com") "/" none
        (fun _ => false) [("a.com/x", 2)]).calls = [] :=
  (c6_amended_reserved_paths Method.GET "a.com" "/" none (fun _ => false)
      [("a.com/x", 2)]).1 ⟨rfl, by decide⟩

/-- C7: a batch body containing a non-string entry or an empty-string
entry is rejected with a 400 before any actor is contacted and with no
counter touched; the empty array is accepted; a body that is not a JSON
array at all is likewise rejected with 400. -/
theorem c7_batch_validation (h : String) (xs : List Json)
    (b : Option Json) (f : String → Bool) (s : Store) :
    ((∃ j ∈ xs, isStrJson j = false ∨ j = Json.str "") →
      (workerFetch Method.POST (some h) "/batch" (some (Json.arr xs))
          f s).status = 400 ∧
      (workerFetch Method.POST (some h) "/batch" (some (Json.arr xs))
          f s).store = s ∧
      (workerFetch Method.POST (some h) "/batch" (some (Json.arr xs))
          f s).calls = []) ∧
    (xs = [] →
      (workerFetch Method.POST (some h) "/batch" (some (Json.arr xs))
          f s).status = 200) ∧
    ((∀ ys : List Json, b ≠ some (Json.arr ys)) →
      (workerFetch Method.POST (some h) "/batch" b f s).status = 400 ∧
      (workerFetch Method.POST (some h) "/batch" b f s).store = s ∧
      (workerFetch Method.POST (some h) "/batch" b f s).calls = []) := by
  refine ⟨?_, ?_, ?_⟩
  · rintro ⟨j, hj, hcase⟩
    have hjf : isValidBatchEntry j = false := by
      rcases hcase with hns | hemp
      · cases j with
        | str t => exact absurd hns (by simp [isStrJson])
        | num n => rfl
        | boolean v => rfl
        | nullVal => rfl
        | arr ys => rfl
      · subst hemp
        rfl
    have hall : xs.all isValidBatchEntry = false := by
      cases hx : xs.all isValidBatchEntry
      · rfl
      · have := List.all_eq_true.mp hx j hj
        rw [hjf] at this
        exact absurd this (by simp)
    simp [workerFetch, hall]
  · intro hxs
    subst hxs
    simp [workerFetch]
  · intro hne
    cases b with
    | none => simp [workerFetch]
    | some j =>
      cases j with
      | arr ys => exact absurd rfl (hne ys)
      | str t => simp [workerFetch]
      | num n => simp [workerFetch]
      | boolean v => simp [workerFetch]
      | nullVal => simp [workerFetch]

/-- Witness for C7: the body `["ok", 5]` is rejected with 400 and no
actor is contacted. -/
theorem c7_witness :
    (workerFetch Method.POST (some "a.com") "/batch"
        (some (Json.arr [Json.str "ok", Json.num 5])) (fun _ => false)
        [("a.com/x", 2)]).status = 400 ∧
    (workerFetch Method.POST (some "a.com") "/batch"
        (some (Json.arr [Json.str "ok", Json.num 5])) (fun _ => false)
        [("a.com/x", 2)]).store = [("a.com/x", 2)] ∧
    (workerFetch Method.POST (some "a.com") "/batch"
        (some (Json.arr [Json.str "ok", Json.num 5])) (fun _ => false)
        [("a.com/x", 2)]).calls = [] :=
  (c7_batch_validation "a.com" [Json.str "ok", Json.num 5]
      (some (Json.arr [Json.str "ok", Json.num 5])) (fun _ => false)
      [("a.com/x", 2)]).1
    ⟨Json.num 5, List.mem_cons_of_mem _ (List.mem_cons_self _ _),
      Or.inl rfl⟩

/-- C8: on a batch over validated paths, a failed per-path lookup is
recorded as `null` (`none`) for exactly that normalized path, every other
path still gets its durable value, storage is untouched and the overall
response is 200. -/
theorem c8_batch_isolated_failures (h : String) (xs : List Json)
    (f : String → Bool) (s : Store) (p q : String)
    (hv : xs.all isValidBatchEntry = true)
    (hp : p ∈ xs.map getStrD) (hq : q ∈ xs.map getStrD)
    (hfp : f (h ++ normalizePath p) = true)
    (hfq : f (h ++ normalizePath q) = false) :
    (workerFetch Method.POST (some h) "/batch" (some (Json.arr xs))
        f s).status = 200 ∧
    (workerFetch Method.POST (some h) "/batch" (some (Json.arr xs))
        f s).store = s ∧
    (workerFetch Method.POST (some h) "/batch" (some (Json.arr xs))
        f s).body = RespBody.mapJson (runBatch h f s (xs.map getStrD)) ∧
    lookupKV (runBatch h f s (xs.map getStrD)) (normalizePath p) =
      some none ∧
    lookupKV (runBatch h f s (xs.map getStrD)) (normalizePath q) =
      some (some ((lookupKV s (h ++ normalizePath q)).getD 0)) := by
  rw [workerFetch_batch_valid h xs f s hv]
  refine ⟨rfl, rfl, rfl, ?_, ?_⟩
  · have hmem : normalizePath p ∈ (xs.map getStrD).map normalizePath :=
      List.mem_map_of_mem normalizePath hp
    rw [lookupKV_runBatch, if_pos hmem]
    simp [batchValue, hfp]
  · have hmem : normalizePath q ∈ (xs.map getStrD).map normalizePath :=
      List.mem_map_of_mem normalizePath hq
    rw [lookupKV_runBatch, if_pos hmem]
    simp [batchValue, hfq, doFetch]

/-- Witness for C8: batch `["/p1", "/p2"]` where the lookup for `/p1`
fails and `/p2` holds 5 views. -/
theorem c8_witness :
    (workerFetch Method.POST (some "a.com") "/batch"
        (some (Json.arr [Json.str "/p1", Json.str "/p2"]))
        (fun k => decide (k = "a.com/p1")) [("a.com/p2", 5)]).status = 200 ∧
    (workerFetch Method.POST (some "a.com") "/batch"
        (some (Json.arr [Json.str "/p1", Json.str "/p2"]))
        (fun k => decide (k = "a.com/p1")) [("a.com/p2", 5)]).store =
      [("a.com/p2", 5)] ∧
    (workerFetch Method.POST (some "a.com") "/batch"
        (some (Json.arr [Json.str "/p1", Json.str "/p2"]))
        (fun k => decide (k = "a.com/p1")) [("a.com/p2", 5)]).body =
      RespBody.mapJson
        (runBatch "a.com" (fun k => decide (k = "a.com/p1"))
          [("a.com/p2", 5)]
          ([Json.str "/p1", Json.str "/p2"].map getStrD)) ∧
    lookupKV
        (runBatch "a.com" (fun k => decide (k = "a.com/p1"))
          [("a.com/p2", 5)] ([Json.str "/p1", Json.str "/p2"].map getStrD))
        (normalizePath "/p1") = some none ∧
    lookupKV
        (runBatch "a.com" (fun k => decide (k = "a.com/p1"))
          [("a.com/p2", 5)] ([Json.str "/p1", Json.str "/p2"].map getStrD))
        (normalizePath "/p2") =
      some (some ((lookupKV [("a.com/p2", 5)]
          ("a.com" ++ normalizePath "/p2")).getD 0)) :=
  c8_batch_isolated_failures "a.com" [Json.str "/p1", Json.str "/p2"]
    (fun k => decide (k = "a.com/p1")) [("a.com/p2", 5)] "/p1" "/p2"
    (by decide) (by decide) (by decide) (by decide) (by decide)

/-- C9: for an accepted batch request the response mapping has exactly
one entry for each input path, keyed by its normalized form, and no
other entries — also when the input list repeats a path or contains
distinct paths that normalize to the same string. -/
theorem c9_one_entry_per_input_path (h : String) (xs : List Json)
    (f : String → Bool) (s : Store) (p k : String)
    (hv : xs.all isValidBatchEntry = true)
    (hp : p ∈ xs.map getStrD)
    (hk : k ∈ keysOf (runBatch h f s (xs.map getStrD))) :
    countKey (normalizePath p)
        (keysOf (runBatch h f s (xs.map getStrD))) = 1 ∧
    (∃ q ∈ xs.map getStrD, k = normalizePath q) ∧
    (workerFetch Method.POST (some h) "/batch" (some (Json.arr xs))
        f s).body = RespBody.mapJson (runBatch h f s (xs.map getStrD)) := by
  refine ⟨?_, ?_, ?_⟩
  · exact countKey_eq_one _ _ (keysOf_runBatch_nodup h f s _)
      ((mem_keysOf_runBatch h f s _ (normalizePath p)).mpr
        (List.mem_map_of_mem normalizePath hp))
  · have hmem := (mem_keysOf_runBatch h f s _ k).mp hk
    rcases List.mem_map.mp hmem with ⟨q, hq, he⟩
    exact ⟨q, hq, he.symm⟩
  · rw [workerFetch_batch_valid h xs f s hv]

/-- Witness for C9: batch `["x", "/x", "/y"]`, where `x` and `/x`
normalize to the same key `/x`, which appears exactly once. -/
theorem c9_witness :
    countKey (normalizePath "x")
        (keysOf (runBatch "a.com" (fun _ => false) []
          ([Json.str "x", Json.str "/x", Json.str "/y"].map getStrD))) = 1 ∧
    (∃ q ∈ [Json.str "x", Json.str "/x", Json.str "/y"].map getStrD,
      "/x" = normalizePath q) ∧
    (workerFetch Method.POST (some "a.com") "/batch"
        (some (Json.arr [Json.str "x", Json.str "/x", Json.str "/y"]))
        (fun _ => false) []).body =
      RespBody.mapJson
        (runBatch "a.com" (fun _ => false) []
          ([Json.str "x", Json.str "/x", Json.str "/y"].map getStrD)) :=
  c9_one_entry_per_input_path "a.com"
    [Json.str "x", Json.str "/x", Json.str "/y"] (fun _ => false) [] "x"
    "/x" (by decide) (by decide) (by decide)

/-- C10: an OPTIONS request on any path is answered with an empty 200
response carrying the CORS headers before any other validation: even with
no Host header it succeeds (never the "Missing Host header" 400), leaves
storage untouched and contacts no Durable Object. -/
theorem c10_options_short_circuits (host : Option String) (p : String)
    (b : Option Json) (f : String → Bool) (s : Store) :
    workerFetch Method.OPTIONS host p b f s =
      ⟨200, RespBody.empty, s, [], true⟩ := by
  simp [workerFetch]

end ViewCounter
